import Mathlib

/-!
Shallow embedding of `src/wiki/transformer.py` (Google Code wiki markup to
reStructuredText transformer) and verification of the frozen claims about it.

Text is modelled as `List Char`.  Python `re.sub` scans are modelled as
left-to-right scanners; the quantifier semantics of each concrete pattern
(`\[(\S*) +(.*?)\]`, the toc / image patterns, `^ *#`, `!([A-Z])`) reduce to
deterministic scans, reproduced below pattern by pattern.  Python exceptions
(`KeyError` from the header level table, `IndexError` from list indexing) are
modelled with `Except PyError`.
-/

namespace Wiki

abbrev Str := List Char

/-- Python 2 whitespace (`str.strip`, regex `\s` on byte strings). -/
def isPySpace (c : Char) : Bool :=
  c = ' ' || c = '\t' || c = '\n' || c = '\r' || c = Char.ofNat 11 || c = Char.ofNat 12

/-- Remove the trailing run of characters satisfying `p` (Python `rstrip`). -/
def rstripP (p : Char → Bool) : Str → Str
  | [] => []
  | c :: s =>
    match rstripP p s with
    | [] => if p c then [] else [c]
    | r => c :: r

/-- Python `str.rstrip()`. -/
def pyRstrip (s : Str) : Str := rstripP isPySpace s

/-- Python `str.strip()`. -/
def pyStrip (s : Str) : Str := rstripP isPySpace (s.dropWhile isPySpace)

/-- Python `str.strip(cs)` for an explicit character set. -/
def pyStripBoth (cs : List Char) (s : Str) : Str :=
  rstripP (cs.contains ·) (s.dropWhile (cs.contains ·))

/-- Join a list of strings with a separator (Python `sep.join`). -/
def joinSep (sep : Str) : List Str → Str
  | [] => []
  | [x] => x
  | x :: xs => x ++ sep ++ joinSep sep xs

/-- ASCII `[A-Z]`. -/
def isUpperAZ (c : Char) : Bool := 'A' ≤ c && c ≤ 'Z'

/-- ASCII `[a-z]`. -/
def isLowerAZ (c : Char) : Bool := 'a' ≤ c && c ≤ 'z'

/-- Lazy `.*?\]` with `.` excluding newline: split the input at the first `]`.
Returns the text before the `]` and the remainder after it; `none` when a
newline comes first or no `]` exists. -/
def splitAtRBracket : Str → Option (Str × Str)
  | [] => none
  | c :: cs =>
    if c = ']' then some ([], cs)
    else if c = '\n' then none
    else
      match splitAtRBracket cs with
      | some (l, r) => some (c :: l, r)
      | none => none

/-- Greedy parse of `([A-Z][a-z]*)+` segments from the start of a string, as
produced by `Line._wiki_word_matcher` / `re.findall(Line._wiki_word_pattern, ...)`:
the regex `(([A-Z][a-z]*){2,})` matches the target iff this list has at least
two segments, and `findall` over its group recovers exactly these segments. -/
def wikiSegsGo : Str → Str → List Str
  | cur, [] => [cur.reverse]
  | cur, c :: cs =>
    if isLowerAZ c then wikiSegsGo (c :: cur) cs
    else if isUpperAZ c then cur.reverse :: wikiSegsGo [c] cs
    else [cur.reverse]

/-- All leading capitalised segments of a target string (empty if the first
character is not an ASCII capital). -/
def wikiSegments : Str → List Str
  | [] => []
  | c :: cs => if isUpperAZ c then wikiSegsGo [c] cs else []

/-- Try to match the tail of `Line._link_re` (`\S* +.*?\]`) at the current
position, i.e. just after a `[`.  `\S*` greedily takes the maximal run of
non-whitespace characters (no shorter run can be followed by the mandatory
space, so no backtracking case is lost), ` +` takes the maximal run of spaces,
and the lazy label stops at the first `]`.  Returns (target, label, rest). -/
def matchLink (cs : Str) : Option (Str × Str × Str) :=
  let t := cs.takeWhile (fun c => !isPySpace c)
  match cs.drop t.length with
  | ' ' :: rest =>
    match splitAtRBracket (rest.dropWhile (· = ' ')) with
    | some (l, r) => some (t, l, r)
    | none => none
  | _ => none

/-- Source `Line._transform_link`: replacement text and link declarations produced for
one matched `[target label]` construct. -/
def transformLink (t l : Str) : Str × List Str :=
  if 2 ≤ (wikiSegments t).length then
    ("[[".toList ++ l ++ ['|'] ++ joinSep [' '] (wikiSegments t) ++ "]]".toList, [])
  else if t.head? = some '#' then
    (('`' :: l) ++ "`__".toList,
     ["__ ".toList ++ (('`' :: (t.drop 1).map (fun c => if c = '_' then ' ' else c)) ++ "`_".toList)])
  else
    (('`' :: l) ++ "`__".toList, ["__ ".toList ++ t])

/-- Source `Line._link_re.sub(self._transform_link, line)`: scan left to right, replace
each match, collect the produced link declarations in match order.  The fuel is
always at least the remaining length (each match consumes at least the `[`, a
space and the `]`), so the fuel-exhausted branch is never taken for
`linkSub` itself. -/
def linkSubGo : Nat → Str → Str × List Str
  | _, [] => ([], [])
  | 0, s => (s, [])
  | f + 1, c :: cs =>
    if c = '[' then
      match matchLink cs with
      | some (t, l, r) =>
        let p := transformLink t l
        let rest := linkSubGo f r
        (p.1 ++ rest.1, p.2 ++ rest.2)
      | none =>
        let rest := linkSubGo f cs
        (c :: rest.1, rest.2)
    else
      let rest := linkSubGo f cs
      (c :: rest.1, rest.2)

/-- The hyperlink substitution pass of the inline rewriter, returning the
rewritten text and the list of link declarations in left-to-right match order. -/
def linkSub (s : Str) : Str × List Str := linkSubGo s.length s

/-- Source `Line._toc_re` optional attribute `max_depth=['"](\d)['"]`: try to parse it
at the current position. -/
def tryTocAttr (cs : Str) : Option (Char × Str) :=
  if "max_depth=".toList.isPrefixOf cs then
    match cs.drop 10 with
    | q1 :: d :: q2 :: rest =>
      if (q1 = Char.ofNat 39 || q1 = '"') && d.isDigit && (q2 = Char.ofNat 39 || q2 = '"') then
        some (d, rest)
      else none
    | _ => none
  else none

/-- Match `Line._toc_re` (`<wiki:toc *(max_depth=['"](\d)['"])? */>`) at the
current position; returns the optional depth digit and the remainder.  When the
attribute group matches but `/>` does not follow, the regex backtracks to the
empty optional group, which is reproduced by the fallback branch. -/
def matchToc (cs : Str) : Option (Option Char × Str) :=
  if "<wiki:toc".toList.isPrefixOf cs then
    let rest := (cs.drop 9).dropWhile (· = ' ')
    match tryTocAttr rest with
    | some (d, rest2) =>
      let rest3 := rest2.dropWhile (· = ' ')
      if "/>".toList.isPrefixOf rest3 then some (some d, rest3.drop 2)
      else if "/>".toList.isPrefixOf rest then some (none, rest.drop 2)
      else none
    | none =>
      if "/>".toList.isPrefixOf rest then some (none, rest.drop 2) else none
  else none

/-- Source `Line._transform_toc`: the replacement text for a toc directive. -/
def tocRepl (d : Option Char) : Str :=
  ".. contents::\n  :local:".toList ++
    match d with
    | some c => "\n  :depth: ".toList ++ [c]
    | none => []

/-- Source `Line._toc_re.sub(self._transform_toc, line)`.  Fuel is at least the
remaining length; every match consumes at least eleven characters. -/
def tocSubGo : Nat → Str → Str
  | _, [] => []
  | 0, s => s
  | f + 1, c :: cs =>
    match matchToc (c :: cs) with
    | some (d, r) => tocRepl d ++ tocSubGo f r
    | none => c :: tocSubGo f cs

/-- The table-of-contents substitution pass. -/
def tocSub (s : Str) : Str := tocSubGo s.length s

/-- Literal prefix of `Line._image_link_matcher`. -/
def imgPre : Str := "[http://wiki.".toList

/-- Literal middle part of `Line._image_link_matcher`. -/
def imgMid : Str := ".googlecode.com/hg/".toList

/-- The `.*?\.googlecode\.com/hg/(.*?)\]` tail of `Line._image_link_matcher`:
grow the first lazy gap one character at a time (never across a newline) until
the literal infix followed by a `]`-terminated filename matches. -/
def imgTail : Str → Option (Str × Str)
  | [] => none
  | c :: cs =>
    if imgMid.isPrefixOf (c :: cs) then
      match splitAtRBracket (cs.drop 18) with
      | some fr => some fr
      | none => if c = '\n' then none else imgTail cs
    else if c = '\n' then none else imgTail cs

/-- Source `Line._image_link_matcher.sub(self._transform_image, line)`: each match is
replaced by `[[<filename>]]`. -/
def imageSubGo : Nat → Str → Str
  | _, [] => []
  | 0, s => s
  | f + 1, c :: cs =>
    if imgPre.isPrefixOf (c :: cs) then
      match imgTail (cs.drop 12) with
      | some (fn, r) => "[[".toList ++ fn ++ "]]".toList ++ imageSubGo f r
      | none => c :: imageSubGo f cs
    else c :: imageSubGo f cs

/-- The image-link substitution pass. -/
def imageSub (s : Str) : Str := imageSubGo s.length s

/-- Source `Line._enumerated_list_re.sub('  #.', line)`: the pattern `^ *#` is
anchored, so only a leading space run followed by `#` is replaced. -/
def enumSub (s : Str) : Str :=
  match s.dropWhile (· = ' ') with
  | '#' :: rest => "  #.".toList ++ rest
  | _ => s

/-- Source `Line._escaped_wiki_word_re.sub('\1', line)`: drop every `!` that
immediately precedes an ASCII capital letter. -/
def escSub : Str → Str
  | '!' :: c :: cs => if isUpperAZ c then c :: escSub cs else '!' :: escSub (c :: cs)
  | c :: cs => c :: escSub cs
  | [] => []

/-- Source `Line.__init__` / `Line._transform_line`: rstrip, then the five
substitution passes in source order, then the constructor's final rstrip.
Returns the rewritten text and the collected link declarations. -/
def lineTransform (orig : Str) : Str × List Str :=
  let r := linkSub (pyRstrip orig)
  (pyRstrip (escSub (enumSub (imageSub (tocSub r.1)))), r.2)

/-- Source `str(Line(orig))`. -/
def lineText (orig : Str) : Str := (lineTransform orig).1

/-- Source `Line(orig).links`. -/
def lineLinks (orig : Str) : List Str := (lineTransform orig).2

/-! ## Block accumulators -/

/-- Python exceptions that the transformer can raise. -/
inductive PyError where
  | keyError
  | indexError
  | attributeError
deriving DecidableEq, Repr

instance exceptDecEq {ε α : Type} [DecidableEq ε] [DecidableEq α] : DecidableEq (Except ε α) :=
  fun x y =>
  match x, y with
  | .ok a, .ok b =>
    match decEq a b with
    | isTrue h => isTrue (h ▸ rfl)
    | isFalse h => isFalse (fun hc => h (Except.ok.inj hc))
  | .ok _, .error _ => isFalse (fun hc => Except.noConfusion hc)
  | .error _, .ok _ => isFalse (fun hc => Except.noConfusion hc)
  | .error e, .error f =>
    match decEq e f with
    | isTrue h => isTrue (h ▸ rfl)
    | isFalse h => isFalse (fun hc => h (Except.error.inj hc))

/-- Source `Header.matches`: the trimmed line starts and ends with `=`. -/
def headerMatches (l : Str) : Bool :=
  "=".toList.isPrefixOf (pyStrip l) && "=".toList.isSuffixOf (pyStrip l)

/-- Source `Header._levels`, the fixed decoration table (a `KeyError` on any other
level). -/
def headerLevels (n : Nat) : Option Char :=
  if n = 1 then some '='
  else if n = 2 then some '-'
  else if n = 3 then some '~'
  else none

/-- Source `Header.add`: level is the count of `=` characters integer-divided by two,
content is the line stripped of `=` and spaces; the stored render is
`content + newline + decoration * len(content)`.  A level outside the table
raises `KeyError`. -/
def headerAdd (l : Str) : Except PyError Str :=
  match headerLevels ((l.filter (· = '=')).length / 2) with
  | some d =>
    let c := pyStripBoth ['=', ' '] l
    .ok (c ++ '\n' :: List.replicate c.length d)
  | none => .error .keyError

/-- Source `BlockQuote.matches`: seeing a trimmed line that starts with the fence-open
token sets `_started`; the result is `started and not finished`.  Returns the
result together with the updated `_started` flag (the call mutates the
object). -/
def bqMatches (started finished : Bool) (l : Str) : Bool × Bool :=
  let started' := started || "\x7b\x7b\x7b".toList.isPrefixOf (pyStrip l)
  (started' && !finished, started')

/-- Source `BlockQuote.add`: a line starting with the fence-close token sets
`_finished`; lines equal to exactly the open or close token are not buffered.
Returns the updated buffer and `_finished` flag. -/
def bqAdd (lines : List Str) (finished : Bool) (l : Str) : List Str × Bool :=
  let fin' := finished || "\x7d\x7d\x7d".toList.isPrefixOf l
  if l = "\x7b\x7b\x7b".toList || l = "\x7d\x7d\x7d".toList then (lines, fin')
  else (lines ++ [l], fin')

/-- Source `BlockQuote.__str__`. -/
def bqRender (lines : List Str) : Str :=
  "::\n\n".toList ++ joinSep ['\n'] (lines.map (fun l => "    ".toList ++ l)) ++ ['\n']

/-- Source `Table._table_cell_separator`. -/
def tableSep : Str := "||".toList

/-- Source `Table.matches`: the line starts and ends with the cell separator (no
trimming in the source). -/
def tableMatches (l : Str) : Bool :=
  tableSep.isPrefixOf l && tableSep.isSuffixOf l

/-- Python `str.split('||')`. -/
def splitOnSep : Str → List Str
  | [] => [[]]
  | '|' :: '|' :: cs => [] :: splitOnSep cs
  | c :: cs =>
    match splitOnSep cs with
    | p :: ps => (c :: p) :: ps
    | [] => [[c]]

/-- Source `Table.add`: split on the separator, strip each piece, drop empty pieces,
append the cell list as a new row. -/
def tableAdd (rows : List (List Str)) (l : Str) : List (List Str) :=
  rows ++ [(splitOnSep l).filterMap (fun c =>
    if pyStrip c = [] then none else some (pyStrip c))]

/-- One iteration of the `Table._col_widths` loop body over a row:
`widths[idx] = max(widths[idx], len(cell))` for each cell, an `IndexError`
(`none`) when the row has more cells than there are widths. -/
def rowUpdate : List Nat → List Str → Option (List Nat)
  | ws, [] => some ws
  | [], _ :: _ => none
  | w :: ws, c :: cs => (rowUpdate ws cs).map (fun ws' => max w c.length :: ws')

/-- Fold of `rowUpdate` over all rows. -/
def colWidthsGo : Option (List Nat) → List (List Str) → Option (List Nat)
  | none, _ => none
  | some ws, [] => some ws
  | some ws, r :: rs => colWidthsGo (rowUpdate ws r) rs

/-- Source `Table._col_widths`: initial widths from the first row (`IndexError` on an
empty table), then the maximum cell length per column over all rows. -/
def colWidths : List (List Str) → Option (List Nat)
  | [] => none
  | r0 :: rest => colWidthsGo (some (r0.map List.length)) (r0 :: rest)

/-- The computed column widths with `[]` as the error default. -/
def colWidthsD (rows : List (List Str)) : List Nat := (colWidths rows).getD []

/-- The horizontal rule: `'  '.join('=' * w for w in widths)`. -/
def hrule (ws : List Nat) : Str := joinSep "  ".toList (ws.map (fun w => List.replicate w '='))

/-- Source `Table._pad`: left-justify each cell to its column width (`zip` truncates
at the shorter list), join with two spaces, strip the result. -/
def padRow (ws : List Nat) (row : List Str) : Str :=
  pyStrip (joinSep "  ".toList ((row.zip ws).map (fun p => p.1 ++ List.replicate (p.2 - p.1.length) ' ')))

/-- Python `list.insert(2, x)`: insert at index 2, appending when the list is
shorter. -/
def pyInsert2 {α : Type} (x : α) (l : List α) : List α :=
  match l with
  | a :: b :: t => a :: b :: x :: t
  | _ => l ++ [x]

/-- Source `Table._get_table_lines`: rule, first padded row, rule, remaining padded
rows, and a trailing rule only when more than one row was buffered.  `none`
models the `IndexError` from `_col_widths`. -/
def tableLines (rows : List (List Str)) : Option (List Str) :=
  match colWidths rows with
  | none => none
  | some ws =>
    let ls := pyInsert2 (hrule ws) (hrule ws :: rows.map (padRow ws))
    some (if 1 < rows.length then ls ++ [hrule ws] else ls)

/-- Source `Table.__str__`. -/
def tableRender (rows : List (List Str)) : Except PyError Str :=
  match tableLines rows with
  | none => .error .indexError
  | some ls => .ok (joinSep ['\n'] ls ++ ['\n'])

/-! ## Elements and the document assembler -/

/-- The element variants held in `Transformer._elements`: a rewritten plain
line, or one of the three block accumulators with their internal state. -/
inductive Element where
  | plain (text : Str)
  | header (content : Str)
  | blockQuote (lines : List Str) (started finished : Bool)
  | table (rows : List (List Str))
deriving DecidableEq, Repr

/-- Dispatch of `.matches` on an element, returning the result and the element
after the call (a `BlockQuote.matches` call mutates `_started`).  `_current`
never holds a plain line in the source, so that branch is unreachable. -/
def elMatches (e : Element) (l : Str) : Bool × Element :=
  match e with
  | .plain t => (false, .plain t)
  | .header c => (headerMatches l, .header c)
  | .blockQuote ls st fin =>
    let r := bqMatches st fin l
    (r.1, .blockQuote ls r.2 fin)
  | .table rows => (tableMatches l, .table rows)

/-- Dispatch of `.add` on an element.  A plain line has no `add` method
(`AttributeError`); unreachable in the source for the same reason as above. -/
def elAdd (e : Element) (l : Str) : Except PyError Element :=
  match e with
  | .plain _ => .error .attributeError
  | .header _ => (headerAdd l).map .header
  | .blockQuote ls st fin =>
    let r := bqAdd ls fin l
    .ok (.blockQuote r.1 st r.2)
  | .table rows => .ok (.table (tableAdd rows l))

/-- Dispatch of `str(...)` on an element. -/
def elRender (e : Element) : Except PyError Str :=
  match e with
  | .plain t => .ok t
  | .header c => .ok c
  | .blockQuote ls _ _ => .ok (bqRender ls)
  | .table rows => tableRender rows

/-- Source `Transformer._next_element`: probe Header, BlockQuote, Table in order on
the rewritten line; the first match receives the line via `add` and becomes
the new current element.  `none` means the line becomes a plain element. -/
def probe (text : Str) : Option (Except PyError Element) :=
  if headerMatches text then some ((headerAdd text).map .header)
  else
    let m := bqMatches false false text
    if m.1 then
      let r := bqAdd [] false text
      some (.ok (.blockQuote r.1 m.2 r.2))
    else if tableMatches text then some (.ok (.table (tableAdd [] text)))
    else none

/-- The state of a `Transformer`: collected link declarations, the element
list, and the index of the current open element (aliasing the Python
`_current` reference into `_elements`). -/
structure TState where
  links : List Str
  elements : List Element
  current : Option Nat
deriving DecidableEq, Repr

/-- A fresh `Transformer`. -/
def initState : TState := ⟨[], [], none⟩

/-- Source `Transformer._next_element` call site in `_transform_line`: append the
probed element (current moves to it) or a plain element (current unchanged). -/
def stepProbe (st : TState) (text : Str) : Except PyError TState :=
  match probe text with
  | some r => r.map (fun e => ⟨st.links, st.elements ++ [e], some st.elements.length⟩)
  | none => .ok ⟨st.links, st.elements ++ [.plain text], st.current⟩

/-- Source `Transformer._transform_line`: rewrite the line, extend the document link
list, then either feed the rewritten line to the current element (the
`matches` test runs on the raw line) or probe for a new element with the
rewritten line. -/
def stepLine (st : TState) (orig : Str) : Except PyError TState :=
  match st.current with
  | some i =>
    match st.elements[i]? with
    | some e =>
      let m := elMatches e orig
      if m.1 then
        (elAdd m.2 (lineText orig)).map (fun e2 =>
          ⟨st.links ++ lineLinks orig, (st.elements.set i m.2).set i e2, st.current⟩)
      else
        stepProbe ⟨st.links ++ lineLinks orig, st.elements.set i m.2, st.current⟩ (lineText orig)
    | none => stepProbe ⟨st.links ++ lineLinks orig, st.elements, st.current⟩ (lineText orig)
  | none => stepProbe ⟨st.links ++ lineLinks orig, st.elements, st.current⟩ (lineText orig)

/-- Source `Transformer._is_ignored_pragma_line`: before any element exists, lines
starting with `#` or blank lines are discarded. -/
def isIgnoredPragma (st : TState) (l : Str) : Bool :=
  st.elements.isEmpty && ("#".toList.isPrefixOf l || (pyStrip l).isEmpty)

/-- The line loop of `Transformer.transform`. -/
def runLines (st : TState) : List Str → Except PyError TState
  | [] => .ok st
  | l :: ls =>
    if isIgnoredPragma st l then runLines st ls
    else
      match stepLine st l with
      | .ok st' => runLines st' ls
      | .error e => .error e

/-- Source `Transformer._format_title`. -/
def formatTitle (title : Str) : Str :=
  let d := List.replicate title.length '='
  d ++ '\n' :: (title ++ '\n' :: (d ++ "\n\n".toList))

/-- Render every element left to right (`str(e)` inside the join), propagating
the first exception. -/
def renderList : List Element → Except PyError (List Str)
  | [] => .ok []
  | e :: es =>
    match elRender e with
    | .error err => .error err
    | .ok s =>
      match renderList es with
      | .error err => .error err
      | .ok ss => .ok (s :: ss)

/-- Source `Transformer._format_elements`. -/
def formatElements (els : List Element) : Except PyError Str :=
  match renderList els with
  | .ok ss => .ok (joinSep ['\n'] ss)
  | .error e => .error e

/-- Source `Transformer._format_links`. -/
def formatLinks (links : List Str) : Str :=
  if links.isEmpty then [] else '\n' :: joinSep ['\n'] links

/-- Source `Transformer.transform`: run the line loop, then title banner, rendered
elements joined by newlines, the link block, and one final newline. -/
def pyTransform (title : Str) (lines : List Str) : Except PyError Str :=
  match runLines initState lines with
  | .error e => .error e
  | .ok st =>
    match formatElements st.elements with
    | .error e => .error e
    | .ok body => .ok (formatTitle title ++ body ++ formatLinks st.links ++ ['\n'])

/-- Does an `Except` computation succeed? -/
def exceptIsOk {α : Type} : Except PyError α → Bool
  | .ok _ => true
  | .error _ => false

/-- The successful result of an `Except` with `[]` as error default. -/
def exceptOkD : Except PyError Str → Str
  | .ok s => s
  | .error _ => []

/-- The header render text produced for a line (error default `[]`). -/
def headerContentD (l : Str) : Str := exceptOkD (headerAdd l)

/-- Link declarations contributed by a list of lines, in order. -/
def catLinks : List Str → List Str
  | [] => []
  | l :: ls => lineLinks l ++ catLinks ls

/-- The raw-line extends test `Transformer._extends_current_element` as a
boolean on the state. -/
def extendsTest (st : TState) (l : Str) : Bool :=
  match st.current with
  | none => false
  | some i =>
    match st.elements[i]? with
    | none => false
    | some e => (elMatches e l).1

/-- Whether the `matches` call of the extends test leaves the current element
unchanged (true whenever there is no current element). -/
def noMutation (st : TState) (l : Str) : Bool :=
  match st.current with
  | none => true
  | some i =>
    match st.elements[i]? with
    | none => true
    | some e => decide ((elMatches e l).2 = e)

/-! ## A `BlockQuote` instance as a trace-level state machine (for C8) -/

/-- The mutable state of one `BlockQuote` instance. -/
structure BQState where
  lines : List Str
  started : Bool
  finished : Bool
deriving DecidableEq, Repr

/-- One observable call on a `BlockQuote` instance. -/
inductive BQOp where
  | callMatches (l : Str)
  | callAdd (l : Str)
deriving DecidableEq, Repr

/-- State change of one call (`matches` mutates `_started`, `add` mutates the
buffer and `_finished`). -/
def bqStep (st : BQState) : BQOp → BQState
  | .callMatches l => ⟨st.lines, (bqMatches st.started st.finished l).2, st.finished⟩
  | .callAdd l => ⟨(bqAdd st.lines st.finished l).1, st.started, (bqAdd st.lines st.finished l).2⟩

/-- Run a call trace from a fresh `BlockQuote()`. -/
def runBQ (ops : List BQOp) : BQState := ops.foldl bqStep ⟨[], false, false⟩

/-- Is this call a `matches` call whose trimmed argument starts with the
fence-open token? -/
def isOpenCall : BQOp → Bool
  | .callMatches l => "\x7b\x7b\x7b".toList.isPrefixOf (pyStrip l)
  | .callAdd _ => false

/-- Is this call an `add` call whose argument starts with the fence-close
token? -/
def isCloseAdd : BQOp → Bool
  | .callAdd l => "\x7d\x7d\x7d".toList.isPrefixOf l
  | .callMatches _ => false

/-! ## Helper lemmas -/

theorem splitAtRBracket_length : ∀ s l r, splitAtRBracket s = some (l, r) → r.length < s.length := by
  intro s
  induction s with
  | nil => intro l r h; simp [splitAtRBracket] at h
  | cons c cs ih =>
    intro l r h
    simp only [splitAtRBracket] at h
    split at h
    · cases h; simp
    · split at h
      · cases h
      · cases hrec : splitAtRBracket cs with
        | none => rw [hrec] at h; cases h
        | some p =>
          rw [hrec] at h
          cases p with
          | mk l' r' =>
            cases h
            have := ih l' r hrec
            simp; omega

theorem length_dropWhile_le' (p : Char → Bool) (s : Str) : (s.dropWhile p).length ≤ s.length := by
  induction s with
  | nil => simp [List.dropWhile]
  | cons c cs ih =>
    simp only [List.dropWhile]
    split
    · simp; omega
    · simp

theorem matchLink_length : ∀ cs t l r, matchLink cs = some (t, l, r) → r.length < cs.length := by
  intro cs t l r h
  simp only [matchLink] at h
  split at h
  · rename_i rest hdrop
    split at h
    · rename_i l' r' hsp
      cases h
      have h1 := splitAtRBracket_length _ _ _ hsp
      have h2 := length_dropWhile_le' (· = ' ') rest
      have h3 : (cs.drop (cs.takeWhile (fun c => !isPySpace c)).length).length ≤ cs.length := by
        simp
      rw [hdrop] at h3
      simp at h3
      omega
    · cases h
  · cases h

theorem linkSubGo_succ_some (f : Nat) (cs t l r : Str) (h : matchLink cs = some (t, l, r)) :
    linkSubGo (f + 1) ('[' :: cs) =
      ((transformLink t l).1 ++ (linkSubGo f r).1, (transformLink t l).2 ++ (linkSubGo f r).2) := by
  simp [linkSubGo, h]

theorem linkSubGo_succ_none (f : Nat) (cs : Str) (h : matchLink cs = none) :
    linkSubGo (f + 1) ('[' :: cs) = ('[' :: (linkSubGo f cs).1, (linkSubGo f cs).2) := by
  simp [linkSubGo, h]

theorem linkSubGo_succ_ne (f : Nat) (c : Char) (cs : Str) (h : c ≠ '[') :
    linkSubGo (f + 1) (c :: cs) = (c :: (linkSubGo f cs).1, (linkSubGo f cs).2) := by
  simp [linkSubGo, h]

theorem linkSubGo_eq : ∀ (f : Nat) (s : Str), s.length ≤ f → linkSubGo f s = linkSub s := by
  intro f
  induction f using Nat.strong_induction_on with
  | _ f ih =>
    intro s hs
    match s with
    | [] => cases f <;> rfl
    | c :: cs =>
      obtain ⟨f', rfl⟩ : ∃ f', f = f' + 1 := ⟨f - 1, by simp at hs; omega⟩
      have hcs : cs.length ≤ f' := by simp at hs; omega
      show linkSubGo (f' + 1) (c :: cs) = linkSubGo (c :: cs).length (c :: cs)
      simp only [List.length_cons]
      by_cases hc : c = '['
      · subst hc
        cases hml : matchLink cs with
        | some tlr =>
          obtain ⟨t, l, r⟩ := tlr
          have hr := matchLink_length cs t l r hml
          rw [linkSubGo_succ_some f' cs t l r hml, linkSubGo_succ_some cs.length cs t l r hml,
            ih f' (by omega) r (by omega), ih cs.length (by omega) r (by omega)]
        | none =>
          rw [linkSubGo_succ_none f' cs hml, linkSubGo_succ_none cs.length cs hml,
            ih f' (by omega) cs (by omega), ih cs.length (by omega) cs (by omega)]
      · rw [linkSubGo_succ_ne f' c cs hc, linkSubGo_succ_ne cs.length c cs hc,
          ih f' (by omega) cs (by omega), ih cs.length (by omega) cs (by omega)]

theorem linkSub_cons_ne (c : Char) (cs : Str) (h : c ≠ '[') :
    linkSub (c :: cs) = (c :: (linkSub cs).1, (linkSub cs).2) := by
  show linkSubGo (c :: cs).length (c :: cs) = _
  simp only [List.length_cons]
  rw [linkSubGo_succ_ne cs.length c cs h]
  rfl

theorem linkSub_cons_match (cs t l r : Str) (h : matchLink cs = some (t, l, r)) :
    linkSub ('[' :: cs) =
      ((transformLink t l).1 ++ (linkSub r).1, (transformLink t l).2 ++ (linkSub r).2) := by
  have hr := matchLink_length cs t l r h
  show linkSubGo ('[' :: cs).length ('[' :: cs) = _
  simp only [List.length_cons]
  rw [linkSubGo_succ_some cs.length cs t l r h, linkSubGo_eq cs.length r (by omega)]

theorem takeWhile_nonspace (t rest : Str) (ht : ∀ c ∈ t, isPySpace c = false) :
    (t ++ ' ' :: rest).takeWhile (fun c => !isPySpace c) = t := by
  induction t with
  | nil => simp [List.takeWhile_cons, isPySpace]
  | cons c cs ih =>
    have hc : isPySpace c = false := ht c (List.mem_cons_self c cs)
    simp only [List.cons_append, List.takeWhile_cons, hc]
    simp [ih (fun d hd => ht d (List.mem_cons_of_mem c hd))]

theorem dropWhile_not_space (l q : Str) (h : l.head? ≠ some ' ') :
    (l ++ ']' :: q).dropWhile (· = ' ') = l ++ ']' :: q := by
  cases l with
  | nil => simp [List.dropWhile_cons]
  | cons c cs =>
    have hc : c ≠ ' ' := by simpa using h
    simp [List.dropWhile_cons, hc]

theorem splitAtRBracket_spec (l q : Str) (h1 : ']' ∉ l) (h2 : '\n' ∉ l) :
    splitAtRBracket (l ++ ']' :: q) = some (l, q) := by
  induction l with
  | nil => simp [splitAtRBracket]
  | cons c cs ih =>
    have hc1 : c ≠ ']' := fun hcc => h1 (hcc ▸ List.mem_cons_self c cs)
    have hc2 : c ≠ '\n' := fun hcc => h2 (hcc ▸ List.mem_cons_self c cs)
    simp only [List.cons_append, splitAtRBracket, if_neg hc1, if_neg hc2]
    simp [ih (fun hm => h1 (List.mem_cons_of_mem c hm)) (fun hm => h2 (List.mem_cons_of_mem c hm))]

theorem matchLink_spec (t l q : Str)
    (ht : ∀ c ∈ t, isPySpace c = false)
    (hl1 : ']' ∉ l) (hl2 : '\n' ∉ l) (hl3 : l.head? ≠ some ' ') :
    matchLink (t ++ ' ' :: (l ++ ']' :: q)) = some (t, l, q) := by
  simp only [matchLink, takeWhile_nonspace t _ ht, List.drop_left]
  rw [dropWhile_not_space l q hl3, splitAtRBracket_spec l q hl1 hl2]

theorem list_set_same {α : Type} :
    ∀ (xs : List α) (i : Nat) (x : α), xs[i]? = some x → xs.set i x = xs := by
  intro xs
  induction xs with
  | nil => intro i x h; cases h
  | cons a as ih =>
    intro i x h
    cases i with
    | zero =>
      simp only [List.getElem?_cons_zero, Option.some.injEq] at h
      subst h
      rfl
    | succ n =>
      simp only [List.getElem?_cons_succ] at h
      simp [List.set, ih n x h]

theorem rowUpdate_self : ∀ r : List Str, rowUpdate (r.map List.length) r = some (r.map List.length) := by
  intro r
  induction r with
  | nil => rfl
  | cons c cs ih => simp [rowUpdate, ih]

theorem rowUpdate_ok : ∀ (r : List Str) (ws : List Nat), r.length ≤ ws.length →
    ∃ ws', rowUpdate ws r = some ws' ∧ ws'.length = ws.length := by
  intro r
  induction r with
  | nil => intro ws _; exact ⟨ws, by cases ws <;> rfl, rfl⟩
  | cons c cs ih =>
    intro ws h
    cases ws with
    | nil => simp at h
    | cons w ws =>
      obtain ⟨ws', h1, h2⟩ := ih ws (by simp at h; omega)
      exact ⟨max w c.length :: ws', by simp [rowUpdate, h1], by simp [h2]⟩

theorem colWidthsGo_ok : ∀ (rows : List (List Str)) (ws : List Nat),
    (∀ r ∈ rows, r.length ≤ ws.length) →
    ∃ ws', colWidthsGo (some ws) rows = some ws' ∧ ws'.length = ws.length := by
  intro rows
  induction rows with
  | nil => intro ws _; exact ⟨ws, rfl, rfl⟩
  | cons r rs ih =>
    intro ws h
    obtain ⟨ws1, h1, h2⟩ := rowUpdate_ok r ws (h r (List.mem_cons_self r rs))
    obtain ⟨ws2, h3, h4⟩ := ih ws1 (fun r' hr' => h2 ▸ h r' (List.mem_cons_of_mem r hr'))
    exact ⟨ws2, by simp [colWidthsGo, h1, h3], by omega⟩

theorem foldl_bq_started (ops : List BQOp) :
    ∀ st : BQState, (ops.foldl bqStep st).started = (st.started || ops.any isOpenCall) := by
  induction ops with
  | nil => intro st; simp
  | cons op ops ih =>
    intro st
    rw [List.foldl_cons, ih]
    cases op with
    | callMatches l => simp [bqStep, bqMatches, isOpenCall, Bool.or_assoc]
    | callAdd l => simp [bqStep, isOpenCall]

theorem foldl_bq_finished (ops : List BQOp) :
    ∀ st : BQState, (ops.foldl bqStep st).finished = (st.finished || ops.any isCloseAdd) := by
  induction ops with
  | nil => intro st; simp
  | cons op ops ih =>
    intro st
    rw [List.foldl_cons, ih]
    cases op with
    | callMatches l => simp [bqStep, bqMatches, isCloseAdd]
    | callAdd l =>
      simp only [bqStep, bqAdd, isCloseAdd, List.any_cons]
      split <;> simp [Bool.or_assoc]

theorem headerMatches_strip (l : Str) (h : headerMatches l = true) :
    ∃ s, pyStrip l = '=' :: s := by
  unfold headerMatches at h
  have h1 : "=".toList.isPrefixOf (pyStrip l) = true := ((Bool.and_eq_true _ _).mp h).1
  rw [show ("=".toList : Str) = ['='] from rfl] at h1
  cases hs : pyStrip l with
  | nil => rw [hs] at h1; cases h1
  | cons c cs =>
    rw [hs] at h1
    simp [List.isPrefixOf] at h1
    exact ⟨cs, by rw [h1]⟩

theorem pragma_of_header (l : Str) (h : headerMatches l = true) :
    ("#".toList.isPrefixOf l || (pyStrip l).isEmpty) = false := by
  obtain ⟨s, hs⟩ := headerMatches_strip l h
  have h2 : (pyStrip l).isEmpty = false := by rw [hs]; rfl
  have h3 : "#".toList.isPrefixOf l = false := by
    rw [show ("#".toList : Str) = ['#'] from rfl]
    cases hl : l with
    | nil => rfl
    | cons c cs =>
      by_cases hc : c = '#'
      · exfalso
        subst hc
        rw [hl] at hs
        have hstrip : pyStrip ('#' :: cs) = rstripP isPySpace ('#' :: cs) := by
          show rstripP isPySpace (List.dropWhile isPySpace ('#' :: cs)) = _
          rw [List.dropWhile_cons]
          simp [show isPySpace '#' = false from by decide]
        rw [hstrip] at hs
        simp only [rstripP] at hs
        cases hr : rstripP isPySpace cs with
        | nil =>
          rw [hr] at hs
          simp [show isPySpace '#' = false from by decide] at hs
        | cons a as =>
          rw [hr] at hs
          simp at hs
      · simp [List.isPrefixOf]
        exact fun hcc => hc hcc.symm
  rw [h2, h3]
  rfl

theorem exceptOk_of_isOk (x : Except PyError Str) (h : exceptIsOk x = true) :
    x = .ok (exceptOkD x) := by
  cases x with
  | ok s => rfl
  | error e => simp [exceptIsOk] at h

/-! ## Claim theorems -/

/-- C2: the claim (and the repository's own test
`test_new_lines_at_the_end_of_file_stripped`) says appending blank lines to the
end of the input does not change the output.  The code disagrees: once a
content element exists, `_is_ignored_pragma_line` no longer discards blank
lines, so each trailing blank line becomes an empty `PlainLine` element and
adds a blank line to the output.  At title `"title"` and content line `"a"`,
appending one blank line changes the output from `...a\n` to `...a\n\n`. -/
theorem c2_theorem :
    pyTransform "title".toList ["a".toList] = .ok "=====\ntitle\n=====\n\na\n".toList ∧
    pyTransform "title".toList ["a".toList, []] = .ok "=====\ntitle\n=====\n\na\n\n".toList ∧
    pyTransform "title".toList ["a".toList] ≠ pyTransform "title".toList ["a".toList, []] :=
  ⟨by decide, by decide, by decide⟩

/-- C4 counterexample: rendering a table whose second row has more cells than
the first row is not total — `_col_widths` indexes `widths[idx]` out of range
and raises `IndexError` instead of truncating. -/
theorem c4_counterexample :
    tableRender [["a".toList], ["b".toList, "c".toList]] = .error .indexError := by decide

/-- C4 (amended): table rendering is total whenever every later row has at most
the first row's column count (rows with fewer cells are zip-truncated when
padded); only a later row with more cells than the first makes rendering fail. -/
theorem c4_theorem (r0 : List Str) (rs : List (List Str))
    (h : ∀ r ∈ rs, r.length ≤ r0.length) :
    exceptIsOk (tableRender (r0 :: rs)) = true := by
  obtain ⟨ws, hws, _⟩ := colWidthsGo_ok rs (r0.map List.length)
    (fun r hr => by simpa using h r hr)
  have hcw : colWidths (r0 :: rs) = some ws := by
    calc colWidths (r0 :: rs) = colWidthsGo (rowUpdate (r0.map List.length) r0) rs := rfl
    _ = colWidthsGo (some (r0.map List.length)) rs := by rw [rowUpdate_self]
    _ = some ws := hws
  simp [tableRender, tableLines, hcw, exceptIsOk]

/-- C4 witness: a concrete two-row table within the first row's column count
renders successfully. -/
theorem c4_witness : exceptIsOk (tableRender (["aa".toList] :: [["b".toList]])) = true :=
  c4_theorem ["aa".toList] [["b".toList]] (by decide)

/-- C5 counterexample: rendering a `Header` on which `add` was never called
(`_content` still `''`) does not surface a failure — it silently returns the
empty string, refuting the claim that both misuse cases are explicit
failures. -/
theorem c5_counterexample : elRender (Element.header []) = .ok [] := rfl

/-- C5 (amended): rendering a `Table` with zero buffered rows raises
`IndexError` (`self._lines[0]` in `_col_widths`), but rendering a `Header`
without a prior `add` silently yields the empty string. -/
theorem c5_theorem :
    elRender (Element.table []) = .error .indexError ∧ elRender (Element.header []) = .ok [] :=
  ⟨rfl, rfl⟩

/-- C1 counterexample: in `||a||`, `x`, `||b||` the plain line `x` does not
terminate the open table — `_next_element` never resets `_current` when it
returns a plain line, so `||b||` is fed via `add` to the table opened before
the plain line, which ends with rows `a`, `b`; no new table element is
created. -/
theorem c1_counterexample :
    runLines initState ["||a||".toList, "x".toList, "||b||".toList] =
      .ok ⟨[], [Element.table [["a".toList], ["b".toList]], Element.plain "x".toList], some 0⟩ := by
  decide

/-- C3 counterexample: with a table open, the raw line `||b|| ` (trailing
space) fails the current table's `matches` — the extends decision is taken on
the raw input line, not on the rewritten line `||b||` which would match — so
the code starts a second table instead of extending the first one. -/
theorem c3_counterexample :
    runLines initState ["||a||".toList, "||b|| ".toList] =
      .ok ⟨[], [Element.table [["a".toList]], Element.table [["b".toList]]], some 1⟩ := by
  decide

/-- C7: a table that buffered exactly one row renders as exactly three lines —
rule, padded data row, rule — with no trailing rule, while a table with two or
more rows (within the first row's column count) renders the remaining padded
rows followed by one additional trailing rule. -/
theorem c7_theorem (r0 r1 : List Str) (rs : List (List Str))
    (h : ∀ row ∈ r1 :: rs, row.length ≤ r0.length) :
    tableLines [r0] =
      some [hrule (r0.map List.length), padRow (r0.map List.length) r0,
        hrule (r0.map List.length)] ∧
    colWidths (r0 :: r1 :: rs) = some (colWidthsD (r0 :: r1 :: rs)) ∧
    tableLines (r0 :: r1 :: rs) =
      some (hrule (colWidthsD (r0 :: r1 :: rs)) :: padRow (colWidthsD (r0 :: r1 :: rs)) r0 ::
        hrule (colWidthsD (r0 :: r1 :: rs)) ::
        ((r1 :: rs).map (padRow (colWidthsD (r0 :: r1 :: rs))) ++
          [hrule (colWidthsD (r0 :: r1 :: rs))])) := by
  have hcw1 : colWidths [r0] = some (r0.map List.length) := by
    calc colWidths [r0] = colWidthsGo (rowUpdate (r0.map List.length) r0) [] := rfl
    _ = colWidthsGo (some (r0.map List.length)) [] := by rw [rowUpdate_self]
    _ = some (r0.map List.length) := rfl
  obtain ⟨ws, hws, _⟩ := colWidthsGo_ok (r1 :: rs) (r0.map List.length)
    (fun r hr => by simpa using h r hr)
  have hcw2 : colWidths (r0 :: r1 :: rs) = some ws := by
    calc colWidths (r0 :: r1 :: rs)
        = colWidthsGo (rowUpdate (r0.map List.length) r0) (r1 :: rs) := rfl
    _ = colWidthsGo (some (r0.map List.length)) (r1 :: rs) := by rw [rowUpdate_self]
    _ = some ws := hws
  have hD : colWidthsD (r0 :: r1 :: rs) = ws := by simp [colWidthsD, hcw2]
  refine ⟨?_, ?_, ?_⟩
  · simp [tableLines, hcw1, pyInsert2]
  · rw [hcw2, hD]
  · rw [hD]
    simp only [tableLines, hcw2, List.map_cons, pyInsert2, List.length_cons]
    rw [if_pos (by omega)]
    simp

/-- C7 witness: a concrete one-row table and a concrete two-row table. -/
theorem c7_witness :
    tableLines [["a".toList]] =
      some [hrule (["a".toList].map List.length), padRow (["a".toList].map List.length) ["a".toList],
        hrule (["a".toList].map List.length)] ∧
    colWidths (["a".toList] :: ["bb".toList] :: []) =
      some (colWidthsD (["a".toList] :: ["bb".toList] :: [])) ∧
    tableLines (["a".toList] :: ["bb".toList] :: []) =
      some (hrule (colWidthsD (["a".toList] :: ["bb".toList] :: [])) ::
        padRow (colWidthsD (["a".toList] :: ["bb".toList] :: [])) ["a".toList] ::
        hrule (colWidthsD (["a".toList] :: ["bb".toList] :: [])) ::
        ((["bb".toList] :: []).map (padRow (colWidthsD (["a".toList] :: ["bb".toList] :: []))) ++
          [hrule (colWidthsD (["a".toList] :: ["bb".toList] :: []))])) :=
  c7_theorem ["a".toList] ["bb".toList] [] (by decide)

/-- C8: over every sequence of `matches`/`add` calls on one `BlockQuote`
instance, a `matches` call returns true exactly when a fence-open has been seen
(by an earlier `matches` call on a trimmed line starting with the fence-open
token, or by the current call's argument) and no `add` call has yet consumed a
line starting with the fence-close token.  In particular `matches` is false
before any fence-open, true from the first fence-open until a fence-close is
consumed by `add`, and permanently false afterwards — even if a later line
again starts with the fence-open token. -/
theorem c8_theorem (ops : List BQOp) (l : Str) :
    (bqMatches (runBQ ops).started (runBQ ops).finished l).1 = true ↔
      (ops.any isOpenCall = true ∨
        "\x7b\x7b\x7b".toList.isPrefixOf (pyStrip l) = true) ∧
      ops.any isCloseAdd = false := by
  have h1 : (runBQ ops).started = ops.any isOpenCall := by
    show (ops.foldl bqStep ⟨[], false, false⟩).started = _
    rw [foldl_bq_started]
    simp
  have h2 : (runBQ ops).finished = ops.any isCloseAdd := by
    show (ops.foldl bqStep ⟨[], false, false⟩).finished = _
    rw [foldl_bq_finished]
    simp
  simp only [bqMatches, h1, h2]
  simp [Bool.and_eq_true, Bool.or_eq_true, Bool.not_eq_true']

/-- C8 witness: a concrete trace — open, buffer, close — after which a further
fence-open line no longer matches. -/
theorem c8_witness :
    (bqMatches
        (runBQ [BQOp.callMatches "\x7b\x7b\x7b".toList, BQOp.callAdd "\x7d\x7d\x7d".toList]).started
        (runBQ [BQOp.callMatches "\x7b\x7b\x7b".toList, BQOp.callAdd "\x7d\x7d\x7d".toList]).finished
        "\x7b\x7b\x7b".toList).1 = true ↔
      (([BQOp.callMatches "\x7b\x7b\x7b".toList, BQOp.callAdd "\x7d\x7d\x7d".toList].any
          isOpenCall = true ∨
        "\x7b\x7b\x7b".toList.isPrefixOf (pyStrip "\x7b\x7b\x7b".toList) = true) ∧
        [BQOp.callMatches "\x7b\x7b\x7b".toList, BQOp.callAdd "\x7d\x7d\x7d".toList].any
          isCloseAdd = false) :=
  c8_theorem _ _

/-- C9: `Header.add` is partial — for a line accepted by `Header.matches`
whose `=` count is below 2 or above 7, the integer-divided level misses the
three-entry decoration table and `add` raises `KeyError`; consequently
`Transformer.transform` fails on the example input `=` instead of producing a
document. -/
theorem c9_theorem (l : Str) (h1 : headerMatches l = true)
    (h2 : (l.filter (· = '=')).length < 2 ∨ 7 < (l.filter (· = '=')).length) :
    headerAdd l = .error .keyError ∧
      pyTransform "title".toList ["=".toList] = .error .keyError := by
  refine ⟨?_, by decide⟩
  have hnone : headerLevels ((l.filter (· = '=')).length / 2) = none := by
    rcases h2 with h2 | h2
    · rw [Nat.div_eq_of_lt h2]
      rfl
    · have h4 : 4 ≤ (l.filter (· = '=')).length / 2 := by
        rw [Nat.le_div_iff_mul_le (by norm_num)]
        omega
      have e1 : (l.filter (· = '=')).length / 2 ≠ 1 := by omega
      have e2 : (l.filter (· = '=')).length / 2 ≠ 2 := by omega
      have e3 : (l.filter (· = '=')).length / 2 ≠ 3 := by omega
      simp [headerLevels, e1, e2, e3]
  simp [headerAdd, hnone]

/-- C9 witness: the single-character line `=` is accepted by `matches`, has one
`=` character, and makes both `add` and the whole transform fail. -/
theorem c9_witness :
    headerAdd "=".toList = .error .keyError ∧
      pyTransform "title".toList ["=".toList] = .error .keyError :=
  c9_theorem "=".toList (by decide) (Or.inl (by decide))

/-- C6: for a hyperlink construct `[T L]` whose target is not matched by the
WikiWord pattern (fewer than two leading capitalised segments) and does not
start with `#`, the link pass replaces the construct by a backquoted label with
a double-underscore suffix and appends exactly one declaration `__ T` to the
line's link list, ahead of the declarations of the rest of the line — one
declaration per link, in left-to-right order. -/
theorem c6_theorem (p t l q : Str)
    (hp : '[' ∉ p)
    (ht : ∀ c ∈ t, isPySpace c = false)
    (hw : (wikiSegments t).length < 2)
    (hh : t.head? ≠ some '#')
    (hl1 : ']' ∉ l) (hl2 : '\n' ∉ l) (hl3 : l.head? ≠ some ' ') :
    linkSub (p ++ '[' :: (t ++ ' ' :: (l ++ ']' :: q))) =
      (p ++ (('`' :: l) ++ "`__".toList) ++ (linkSub q).1,
        ("__ ".toList ++ t) :: (linkSub q).2) := by
  induction p with
  | nil =>
    rw [List.nil_append, linkSub_cons_match _ t l q (matchLink_spec t l q ht hl1 hl2 hl3)]
    have htl : transformLink t l = (('`' :: l) ++ "`__".toList, ["__ ".toList ++ t]) := by
      unfold transformLink
      rw [if_neg (by omega), if_neg hh]
    rw [htl]
    simp
  | cons c p' ih =>
    have hc : c ≠ '[' := fun hcc => hp (hcc ▸ List.mem_cons_self c p')
    rw [List.cons_append, linkSub_cons_ne c _ hc, ih (fun hm => hp (List.mem_cons_of_mem c hm))]
    simp

/-- C6 witness: the link `[http://x Y]` on a line of its own. -/
theorem c6_witness :
    linkSub (([] : Str) ++ '[' :: ("http://x".toList ++ ' ' :: ("Y".toList ++ ']' :: ([] : Str)))) =
      (([] : Str) ++ (('`' :: "Y".toList) ++ "`__".toList) ++ (linkSub []).1,
        ("__ ".toList ++ "http://x".toList) :: (linkSub []).2) :=
  c6_theorem [] "http://x".toList "Y".toList [] (by decide) (by decide) (by decide) (by decide)
    (by decide) (by decide) (by decide)

/-- C1 (amended): a line that extends no current element and matches no block
constructor becomes a standalone `PlainLine` element, but it does not terminate
the previously open element — `_next_element` leaves `_current` unchanged when
it returns a plain line, so a later line accepted by the still-referenced
element's `matches` (such as a table row after an intervening plain line, see
the counterexample) is fed to that earlier element via `add`. -/
theorem c1_theorem (st : TState) (l : Str)
    (hext : extendsTest st l = false)
    (hmut : noMutation st l = true)
    (hprobe : probe (lineText l) = none) :
    stepLine st l =
      .ok ⟨st.links ++ lineLinks l, st.elements ++ [Element.plain (lineText l)], st.current⟩ := by
  unfold stepLine
  unfold extendsTest at hext
  unfold noMutation at hmut
  cases hcur : st.current with
  | none => simp [stepProbe, hprobe]
  | some i =>
    cases hg : st.elements[i]? with
    | none => simp [hg, stepProbe, hprobe]
    | some e =>
      rw [hcur] at hext hmut
      simp only [hg] at hext hmut
      have hm2 : (elMatches e l).2 = e := of_decide_eq_true hmut
      simp [hg, hext, hm2, list_set_same st.elements i e hg, stepProbe, hprobe]

/-- C1 witness: a plain line arriving while a table is open is appended as a
plain element and the current pointer still references the table. -/
theorem c1_witness :
    stepLine ⟨[], [Element.table [["a".toList]]], some 0⟩ "x".toList =
      .ok ⟨[] ++ lineLinks "x".toList,
        [Element.table [["a".toList]]] ++ [Element.plain (lineText "x".toList)], some 0⟩ :=
  c1_theorem ⟨[], [Element.table [["a".toList]]], some 0⟩ "x".toList (by decide) (by decide)
    (by decide)

/-- C3 (amended): when an element is open, the decision whether the line
extends it is made by calling the element's `matches` on the raw input line
(`_extends_current_element(orig_line)`), and on success the rewritten line is
what is passed to `add`. -/
theorem c3_theorem (st : TState) (i : Nat) (e e1 : Element) (l : Str)
    (hc : st.current = some i) (hg : st.elements[i]? = some e)
    (hm : elMatches e l = (true, e1)) :
    stepLine st l = (elAdd e1 (lineText l)).map (fun e2 =>
      ⟨st.links ++ lineLinks l, (st.elements.set i e1).set i e2, st.current⟩) := by
  unfold stepLine
  rw [hc]
  simp [hg, hm]

/-- C3 witness: a raw table row extending an open table; the rewritten line is
the argument of `add`. -/
theorem c3_witness :
    stepLine ⟨[], [Element.table [["a".toList]]], some 0⟩ "||b||".toList =
      (elAdd (Element.table [["a".toList]]) (lineText "||b||".toList)).map (fun e2 =>
        ⟨[] ++ lineLinks "||b||".toList,
          (([Element.table [["a".toList]]].set 0 (Element.table [["a".toList]])).set 0 e2),
          some 0⟩) :=
  c3_theorem ⟨[], [Element.table [["a".toList]]], some 0⟩ 0 (Element.table [["a".toList]])
    (Element.table [["a".toList]]) "||b||".toList rfl rfl (by decide)

theorem getLast_cons_some : ∀ (l : List Str) (a : Str), ∃ x, (a :: l).getLast? = some x := by
  intro l
  induction l with
  | nil => intro a; exact ⟨a, rfl⟩
  | cons b m ih =>
    intro a
    obtain ⟨x, hx⟩ := ih b
    exact ⟨x, hx⟩

theorem getLastD_shift (r dflt : Str) (rs : List Str) :
    (r :: rs).getLast?.getD dflt = rs.getLast?.getD r := by
  cases rs with
  | nil => rfl
  | cons a l =>
    obtain ⟨x, hx⟩ := getLast_cons_some l a
    rw [show (r :: a :: l).getLast? = (a :: l).getLast? from rfl, hx]
    rfl

theorem step_header (L : List Str) (c l : Str)
    (hraw : headerMatches l = true)
    (hok : exceptIsOk (headerAdd (lineText l)) = true) :
    stepLine ⟨L, [Element.header c], some 0⟩ l =
      .ok ⟨L ++ lineLinks l, [Element.header (headerContentD (lineText l))], some 0⟩ := by
  have hadd : headerAdd (lineText l) = .ok (headerContentD (lineText l)) :=
    exceptOk_of_isOk _ hok
  unfold stepLine
  simp [elMatches, hraw, hadd, elAdd, Except.map, List.set]

theorem run_headers (rest : List Str) :
    ∀ (L : List Str) (dflt : Str),
      (∀ l ∈ rest, headerMatches l = true) →
      (∀ l ∈ rest, exceptIsOk (headerAdd (lineText l)) = true) →
      runLines ⟨L, [Element.header (headerContentD (lineText dflt))], some 0⟩ rest =
        .ok ⟨L ++ catLinks rest,
          [Element.header (headerContentD (lineText (rest.getLastD dflt)))], some 0⟩ := by
  induction rest with
  | nil => intro L dflt _ _; simp [runLines, catLinks, List.getLastD]
  | cons r rs ih =>
    intro L dflt hm ho
    have hpr : isIgnoredPragma
        ⟨L, [Element.header (headerContentD (lineText dflt))], some 0⟩ r = false := by
      simp [isIgnoredPragma]
    have hstep := step_header L (headerContentD (lineText dflt)) r
      (hm r (List.mem_cons_self r rs)) (ho r (List.mem_cons_self r rs))
    simp only [runLines, hpr, Bool.false_eq_true, if_false, hstep]
    rw [ih (L ++ lineLinks r) r (fun l hl => hm l (List.mem_cons_of_mem r hl))
      (fun l hl => ho l (List.mem_cons_of_mem r hl))]
    simp [catLinks, List.getLastD_eq_getLast?, getLastD_shift]

/-- C10: when every line of the input satisfies `Header.matches` (the first
line also after rewriting, so that the probe opens a header) and every `add`
succeeds, the assembler keeps feeding lines to the same single `Header`
instance; each `add` overwrites the stored render, so the final state holds
exactly one header element whose content comes from the last line — the
earlier header lines are silently lost. -/
theorem c10_theorem (l1 : Str) (rest : List Str)
    (h1raw : headerMatches l1 = true)
    (h1txt : headerMatches (lineText l1) = true)
    (hrest : ∀ l ∈ rest, headerMatches l = true)
    (hadds : ∀ l ∈ l1 :: rest, exceptIsOk (headerAdd (lineText l)) = true) :
    runLines initState (l1 :: rest) =
      .ok ⟨catLinks (l1 :: rest),
        [Element.header (headerContentD (lineText (rest.getLastD l1)))], some 0⟩ := by
  have hpr : isIgnoredPragma initState l1 = false := by
    have h := pragma_of_header l1 h1raw
    simp only [isIgnoredPragma, initState]
    simpa using h
  have hadd : headerAdd (lineText l1) = .ok (headerContentD (lineText l1)) :=
    exceptOk_of_isOk _ (hadds l1 (List.mem_cons_self l1 rest))
  have hstep : stepLine initState l1 =
      .ok ⟨lineLinks l1, [Element.header (headerContentD (lineText l1))], some 0⟩ := by
    unfold stepLine initState
    simp [stepProbe, probe, h1txt, hadd, Except.map]
  simp only [runLines, hpr, Bool.false_eq_true, if_false, hstep]
  rw [run_headers rest (lineLinks l1) l1 hrest (fun l hl => hadds l (List.mem_cons_of_mem l1 hl))]
  simp [catLinks]

/-- C10 witness: two consecutive header lines; only the second one's render is
kept. -/
theorem c10_witness :
    runLines initState ["=a=".toList, "=b=".toList] =
      .ok ⟨catLinks ["=a=".toList, "=b=".toList],
        [Element.header (headerContentD (lineText (["=b=".toList].getLastD "=a=".toList)))],
        some 0⟩ :=
  c10_theorem "=a=".toList ["=b=".toList] (by decide) (by decide) (by decide) (by decide)

end Wiki
